import Mathlib

/-!
Verification of the step-attestation recorder of `in-toto-rs`
(`src/runlib.rs` and `src/models/link/byproducts.rs`).

The Rust code is shallowly embedded:

* `BTreeMap<String, V>` becomes a list of key-value pairs kept strictly
  sorted by key (`Smap.insert` keeps the canonical form, last insert wins
  on an existing key, exactly as `BTreeMap::insert` does).  The order is
  code-point-lexicographic, which on UTF-8 strings agrees with the
  byte-lexicographic order `BTreeMap<String, _>` uses.
* Fallible Rust calls (`metadata`, `File::open`, hashing, process launch,
  UTF-8 decoding) are oracles: the environment supplies their results and
  the embedded functions propagate them exactly as the `?` operator does.
* A Rust panic (an `unwrap` or an out-of-bounds index) is the `none` case
  of an outer `Option` layer; an `Err` return is `some (.error e)`.
-/

namespace InToto

/-! ## Sorted string maps: the embedding of `BTreeMap` -/

/-- Code-point order on characters, as a boolean. -/
def charLtB (a b : Char) : Bool := a.toNat < b.toNat

/-- Lexicographic order on character lists, as a boolean. -/
def lexLtB : List Char → List Char → Bool
  | _, [] => false
  | [], _ :: _ => true
  | a :: as, b :: bs =>
    if a.toNat < b.toNat then true
    else if b.toNat < a.toNat then false
    else lexLtB as bs

/-- The key order of `BTreeMap<String, _>`. -/
def strLtB (a b : String) : Bool := lexLtB a.data b.data

theorem lexLtB_irrefl : ∀ l : List Char, lexLtB l l = false := by
  intro l
  induction l with
  | nil => rfl
  | cons a as ih => simp [lexLtB, ih]

theorem lexLtB_antisymm : ∀ a b : List Char, lexLtB a b = false → lexLtB b a = false → a = b := by
  intro a
  induction a with
  | nil =>
    intro b hab _
    cases b with
    | nil => rfl
    | cons x xs => simp [lexLtB] at hab
  | cons x xs ih =>
    intro b hab hba
    cases b with
    | nil => simp [lexLtB] at hba
    | cons y ys =>
      simp only [lexLtB] at hab hba
      by_cases hxy : x.toNat < y.toNat
      · simp [hxy] at hab
      · by_cases hyx : y.toNat < x.toNat
        · simp [hyx] at hba
        · have hn : x.toNat = y.toNat := by omega
          have hchar : x = y := Char.ext (UInt32.toNat.inj hn)
          simp [hxy, hyx] at hab hba
          exact hchar ▸ congrArg (x :: ·) (ih ys hab hba)

theorem lexLtB_trans :
    ∀ a b c : List Char, lexLtB a b = true → lexLtB b c = true → lexLtB a c = true := by
  intro a
  induction a with
  | nil =>
    intro b c hab hbc
    cases c with
    | nil =>
      cases b with
      | nil => simp [lexLtB] at hab
      | cons y ys => simp [lexLtB] at hbc
    | cons z zs => simp [lexLtB]
  | cons x xs ih =>
    intro b c hab hbc
    cases b with
    | nil => simp [lexLtB] at hab
    | cons y ys =>
      cases c with
      | nil => simp [lexLtB] at hbc
      | cons z zs =>
        simp only [lexLtB] at hab hbc ⊢
        by_cases hxy : x.toNat < y.toNat
        · by_cases hyz : y.toNat < z.toNat
          · simp [show x.toNat < z.toNat by omega]
          · by_cases hzy : z.toNat < y.toNat
            · simp [hyz, hzy] at hbc
            · have : y.toNat = z.toNat := by omega
              simp [show x.toNat < z.toNat by omega]
        · by_cases hyx : y.toNat < x.toNat
          · simp [hxy, hyx] at hab
          · have hxyeq : x.toNat = y.toNat := by omega
            by_cases hyz : y.toNat < z.toNat
            · simp [show x.toNat < z.toNat by omega]
            · by_cases hzy : z.toNat < y.toNat
              · simp [hyz, hzy] at hbc
              · simp [hxy, hyx] at hab
                simp [hyz, hzy] at hbc
                have hxz : ¬ x.toNat < z.toNat := by omega
                have hzx : ¬ z.toNat < x.toNat := by omega
                simp [hxz, hzx]
                exact ih ys zs hab hbc

theorem strLtB_irrefl (a : String) : strLtB a a = false := lexLtB_irrefl a.data

theorem strLtB_antisymm {a b : String} (hab : strLtB a b = false) (hba : strLtB b a = false) :
    a = b :=
  String.ext (lexLtB_antisymm a.data b.data hab hba)

theorem strLtB_trans {a b c : String} (hab : strLtB a b = true) (hbc : strLtB b c = true) :
    strLtB a c = true :=
  lexLtB_trans a.data b.data c.data hab hbc

theorem strLtB_asymm {a b : String} (hab : strLtB a b = true) : strLtB b a = false := by
  by_contra h
  have hba : strLtB b a = true := by
    cases hcase : strLtB b a with
    | false => exact absurd hcase h
    | true => rfl
  have := strLtB_trans hab hba
  rw [strLtB_irrefl] at this
  cases this

namespace Smap

variable {α : Type}

/-- `BTreeMap::insert`: keep the list strictly sorted by key, replace an
existing binding (last insert wins). -/
def insert : List (String × α) → String → α → List (String × α)
  | [], k, v => [(k, v)]
  | (k', v') :: t, k, v =>
    if strLtB k k' = true then (k, v) :: (k', v') :: t
    else if k = k' then (k, v) :: t
    else (k', v') :: insert t k v

/-- `BTreeMap::get`. -/
def find? : List (String × α) → String → Option α
  | [], _ => none
  | (k', v') :: t, k => if k = k' then some v' else find? t k

/-- A boolean check that the keys are strictly ascending: the invariant of
the canonical `BTreeMap` representation. -/
def sortedKeysB : List (String × α) → Bool
  | [] => true
  | [_] => true
  | a :: b :: t => strLtB a.1 b.1 && sortedKeysB (b :: t)

theorem find?_insert_self : ∀ (m : List (String × α)) (k : String) (v : α),
    find? (insert m k v) k = some v := by
  intro m k v
  induction m with
  | nil => simp [insert, find?]
  | cons hd t ih =>
    obtain ⟨k', v'⟩ := hd
    by_cases heq : k = k'
    · subst heq
      simp [insert, strLtB_irrefl, find?]
    · by_cases hlt : strLtB k k' = true
      · simp [insert, hlt, find?]
      · simp [insert, hlt, heq, find?, ih]

theorem find?_insert_ne : ∀ (m : List (String × α)) (k k'' : String) (v : α),
    k'' ≠ k → find? (insert m k v) k'' = find? m k'' := by
  intro m k k'' v hne
  induction m with
  | nil => simp [insert, find?, hne]
  | cons hd t ih =>
    obtain ⟨k', v'⟩ := hd
    by_cases heq : k = k'
    · subst heq
      simp [insert, strLtB_irrefl, find?, hne]
    · by_cases hlt : strLtB k k' = true
      · simp [insert, hlt, find?, hne]
      · by_cases h2 : k'' = k'
        · simp [insert, hlt, heq, find?, h2]
        · simp [insert, hlt, heq, find?, h2, ih]

theorem mem_insert : ∀ (m : List (String × α)) (k : String) (v : α) (x : String × α),
    x ∈ insert m k v → x ∈ m ∨ x = (k, v) := by
  intro m k v x hx
  induction m with
  | nil => simp [insert] at hx; simp [hx]
  | cons hd t ih =>
    obtain ⟨k', v'⟩ := hd
    by_cases heq : k = k'
    · subst heq
      simp [insert, strLtB_irrefl] at hx
      rcases hx with h | h
      · exact Or.inr (by simp [h])
      · exact Or.inl (by simp [h])
    · by_cases hlt : strLtB k k' = true
      · simp [insert, hlt] at hx
        rcases hx with h | h | h
        · exact Or.inr (by simp [h])
        · exact Or.inl (by simp [h])
        · exact Or.inl (by simp [h])
      · simp [insert, hlt, heq] at hx
        rcases hx with h | h
        · exact Or.inl (by simp [h])
        · rcases ih h with h' | h'
          · exact Or.inl (by simp [h'])
          · exact Or.inr h'

/-- The strict key order between entries. -/
def keyLt (a b : String × α) : Prop := strLtB a.1 b.1 = true

theorem sortedKeysB_pairwise :
    ∀ m : List (String × α), sortedKeysB m = true → m.Pairwise keyLt := by
  intro m
  induction m with
  | nil => intro _; exact List.Pairwise.nil
  | cons a t ih =>
    intro hs
    cases t with
    | nil => simp
    | cons b t' =>
      have hab : strLtB a.1 b.1 = true := by
        simp [sortedKeysB] at hs
        exact hs.1
      have hrest : sortedKeysB (b :: t') = true := by
        simp [sortedKeysB] at hs ⊢
        exact hs.2
      have hp := ih hrest
      refine List.Pairwise.cons ?_ hp
      intro x hx
      rcases List.mem_cons.mp hx with h | h
      · exact h ▸ hab
      · have hbx : keyLt b x := (List.pairwise_cons.mp hp).1 x h
        exact strLtB_trans hab hbx

theorem insert_pairwise :
    ∀ (m : List (String × α)) (k : String) (v : α),
      m.Pairwise keyLt → (insert m k v).Pairwise keyLt := by
  intro m k v hm
  induction m with
  | nil => simp [insert, keyLt]
  | cons hd t ih =>
    obtain ⟨k', v'⟩ := hd
    have hhd : ∀ x ∈ t, keyLt (k', v') x := (List.pairwise_cons.mp hm).1
    have ht : t.Pairwise keyLt := (List.pairwise_cons.mp hm).2
    by_cases heq : k = k'
    · subst heq
      have hins : insert ((k, v') :: t) k v = (k, v) :: t := by
        simp [insert, strLtB_irrefl]
      rw [hins]
      refine List.Pairwise.cons ?_ ht
      intro x hx
      exact hhd x hx
    · by_cases hlt : strLtB k k' = true
      · simp only [insert, if_pos hlt]
        refine List.Pairwise.cons ?_ hm
        intro x hx
        rcases List.mem_cons.mp hx with h | h
        · exact h ▸ hlt
        · exact strLtB_trans hlt (hhd x h)
      · simp only [insert, if_neg hlt, if_neg heq]
        refine List.Pairwise.cons ?_ (ih ht)
        intro x hx
        rcases mem_insert t k v x hx with h | h
        · exact hhd x h
        · have hk'k : strLtB k' k = true := by
            cases hcase : strLtB k' k with
            | true => rfl
            | false =>
              exact absurd (strLtB_antisymm (by simpa using hlt) hcase) heq
          exact h ▸ hk'k

theorem insert_front_of_lt (l : List (String × α)) (k : String) (v : α)
    (h : ∀ x ∈ l, strLtB k x.1 = true) : insert l k v = (k, v) :: l := by
  cases l with
  | nil => rfl
  | cons hd t =>
    have := h hd (by simp)
    simp [insert, this]

theorem insert_append_of_gt :
    ∀ (m : List (String × α)) (k : String) (v : α),
      (∀ x ∈ m, strLtB x.1 k = true) → insert m k v = m ++ [(k, v)] := by
  intro m k v h
  induction m with
  | nil => rfl
  | cons hd t ih =>
    obtain ⟨k', v'⟩ := hd
    have hk'k : strLtB k' k = true := h (k', v') (by simp)
    have hlt : ¬ strLtB k k' = true := by
      intro hc
      have := strLtB_asymm hc
      rw [this] at hk'k
      cases hk'k
    have heq : ¬ k = k' := by
      intro hc
      subst hc
      rw [strLtB_irrefl] at hk'k
      cases hk'k
    simp only [insert, if_neg hlt, if_neg heq, List.cons_append]
    exact congrArg _ (ih (fun x hx => h x (by simp [hx])))

/-- Inserting every binding of an already-sorted list into a map whose keys
all come strictly earlier just appends the list. -/
theorem foldl_insert_of_sorted :
    ∀ (kvs m : List (String × α)),
      kvs.Pairwise keyLt → (∀ x ∈ m, ∀ y ∈ kvs, strLtB x.1 y.1 = true) →
      kvs.foldl (fun acc kv => insert acc kv.1 kv.2) m = m ++ kvs := by
  intro kvs
  induction kvs with
  | nil => intro m _ _; simp
  | cons kv rest ih =>
    intro m hp hlt
    have h1 : insert m kv.1 kv.2 = m ++ [kv] := by
      have := insert_append_of_gt m kv.1 kv.2 (fun x hx => hlt x hx kv (by simp))
      simpa using this
    have hrest : rest.Pairwise keyLt := (List.pairwise_cons.mp hp).2
    have hhd : ∀ y ∈ rest, keyLt kv y := (List.pairwise_cons.mp hp).1
    have h2 : ∀ x ∈ m ++ [kv], ∀ y ∈ rest, strLtB x.1 y.1 = true := by
      intro x hx y hy
      rcases List.mem_append.mp hx with h | h
      · exact hlt x h y (by simp [hy])
      · have : x = kv := by simpa using h
        exact this ▸ hhd y hy
    simp only [List.foldl_cons, h1]
    rw [ih (m ++ [kv]) hrest h2]
    simp

/-- Filtering by a key predicate commutes with insertion, on sorted maps. -/
theorem filter_insert (p : String → Bool) :
    ∀ (m : List (String × α)) (k : String) (v : α), m.Pairwise keyLt →
      (insert m k v).filter (fun kv => p kv.1) =
        if p k = true then insert (m.filter (fun kv => p kv.1)) k v
        else m.filter (fun kv => p kv.1) := by
  intro m k v hm
  induction m with
  | nil =>
    by_cases hp : p k = true <;> simp [insert, List.filter_cons, hp]
  | cons hd t ih =>
    obtain ⟨k', v'⟩ := hd
    have hhd : ∀ x ∈ t, keyLt (k', v') x := (List.pairwise_cons.mp hm).1
    have ht : t.Pairwise keyLt := (List.pairwise_cons.mp hm).2
    by_cases heq : k = k'
    · subst heq
      have hins : insert ((k, v') :: t) k v = (k, v) :: t := by
        simp [insert, strLtB_irrefl]
      rw [hins]
      by_cases hp : p k = true
      · rw [if_pos hp]
        have hfil : ((k, v') :: t).filter (fun kv => p kv.1) =
            (k, v') :: t.filter (fun kv => p kv.1) := by
          simp [List.filter_cons, hp]
        rw [hfil]
        have hins2 : insert ((k, v') :: t.filter (fun kv => p kv.1)) k v =
            (k, v) :: t.filter (fun kv => p kv.1) := by
          simp [insert, strLtB_irrefl]
        rw [hins2]
        simp [List.filter_cons, hp]
      · rw [if_neg hp]
        simp [List.filter_cons, hp]
    · by_cases hlt : strLtB k k' = true
      · have hins : insert ((k', v') :: t) k v = (k, v) :: (k', v') :: t := by
          simp [insert, hlt]
        rw [hins]
        by_cases hp : p k = true
        · rw [if_pos hp]
          have hL : ((k, v) :: (k', v') :: t).filter (fun kv => p kv.1) =
              (k, v) :: ((k', v') :: t).filter (fun kv => p kv.1) := by
            simp [List.filter_cons, hp]
          rw [hL, insert_front_of_lt]
          intro x hx
          have hxmem : x ∈ (k', v') :: t := List.mem_of_mem_filter hx
          rcases List.mem_cons.mp hxmem with h | h
          · rw [h]; exact hlt
          · exact strLtB_trans hlt (hhd x h)
        · rw [if_neg hp]
          simp [List.filter_cons, hp]
      · have hins : insert ((k', v') :: t) k v = (k', v') :: insert t k v := by
          simp [insert, hlt, heq]
        rw [hins]
        by_cases hp' : p k' = true
        · have hc1 : ((k', v') :: insert t k v).filter (fun kv => p kv.1) =
              (k', v') :: (insert t k v).filter (fun kv => p kv.1) := by
            simp [List.filter_cons, hp']
          have hc2 : ((k', v') :: t).filter (fun kv => p kv.1) =
              (k', v') :: t.filter (fun kv => p kv.1) := by
            simp [List.filter_cons, hp']
          rw [hc1, hc2, ih ht]
          by_cases hp : p k = true
          · rw [if_pos hp, if_pos hp]
            have : insert ((k', v') :: t.filter (fun kv => p kv.1)) k v =
                (k', v') :: insert (t.filter (fun kv => p kv.1)) k v := by
              simp [insert, hlt, heq]
            rw [this]
          · rw [if_neg hp, if_neg hp]
        · have hc1 : ((k', v') :: insert t k v).filter (fun kv => p kv.1) =
              (insert t k v).filter (fun kv => p kv.1) := by
            simp [List.filter_cons, hp']
          have hc2 : ((k', v') :: t).filter (fun kv => p kv.1) =
              t.filter (fun kv => p kv.1) := by
            simp [List.filter_cons, hp']
          rw [hc1, hc2, ih ht]

/-- Filtering by a key predicate commutes with a fold of insertions whose
keys all satisfy the predicate. -/
theorem filter_foldl_insert (p : String → Bool) :
    ∀ (kvs m : List (String × α)), m.Pairwise keyLt →
      (∀ kv ∈ kvs, p kv.1 = true) →
      (kvs.foldl (fun acc kv => insert acc kv.1 kv.2) m).filter (fun kv => p kv.1) =
        kvs.foldl (fun acc kv => insert acc kv.1 kv.2) (m.filter (fun kv => p kv.1)) := by
  intro kvs
  induction kvs with
  | nil => intro m _ _; simp
  | cons kv rest ih =>
    intro m hm hall
    have hkv : p kv.1 = true := hall kv (by simp)
    simp only [List.foldl_cons]
    rw [ih (insert m kv.1 kv.2) (insert_pairwise m kv.1 kv.2 hm)
        (fun x hx => hall x (by simp [hx]))]
    rw [filter_insert p m kv.1 kv.2 hm, if_pos hkv]

/-- Looking up a key that none of the folded-in bindings uses. -/
theorem find?_foldl_insert_of_not_mem :
    ∀ (kvs m : List (String × α)) (k : String),
      (∀ kv ∈ kvs, kv.1 ≠ k) →
      find? (kvs.foldl (fun acc kv => insert acc kv.1 kv.2) m) k = find? m k := by
  intro kvs
  induction kvs with
  | nil => intro m k _; rfl
  | cons kv rest ih =>
    intro m k hne
    simp only [List.foldl_cons]
    rw [ih (insert m kv.1 kv.2) k (fun x hx => hne x (by simp [hx]))]
    exact find?_insert_ne m kv.1 k kv.2 (fun h => hne kv (by simp) h.symm)

/-- The value of the binding inserted last for a key, if any. -/
def lastVal : List (String × α) → String → Option α
  | [], _ => none
  | kv :: rest, k =>
    match lastVal rest k with
    | some v => some v
    | none => if kv.1 = k then some kv.2 else none

/-- A fold of insertions realises last-insert-wins: the result of a lookup
is the last binding for the key among the inserted ones, else the lookup
in the starting map. -/
theorem find?_foldl_insert :
    ∀ (kvs m : List (String × α)) (k : String),
      find? (kvs.foldl (fun acc kv => insert acc kv.1 kv.2) m) k =
        match lastVal kvs k with
        | some v => some v
        | none => find? m k := by
  intro kvs
  induction kvs with
  | nil => intro m k; rfl
  | cons kv rest ih =>
    intro m k
    simp only [List.foldl_cons, lastVal]
    rw [ih (insert m kv.1 kv.2) k]
    cases hlast : lastVal rest k with
    | some v => rfl
    | none =>
      by_cases hk : kv.1 = k
      · subst hk
        simp [find?_insert_self]
      · have := find?_insert_ne m kv.1 k kv.2 (fun h => hk h.symm)
        simp [this, hk]

end Smap

/-! ## Errors: the embedding of the crate's `Error` type -/

/-- Errors of the crate, restricted to the shapes `runlib.rs` produces or
propagates.  `ioError` covers `Error::from(io::Error::new(Other, msg))` and
every I/O failure forwarded by `?`; `validationError` covers the failures
of `VirtualTargetPath::new` and of link assembly. -/
inductive Err where
  | ioError (msg : String)
  | validationError (msg : String)
deriving DecidableEq, Repr

/-! ## `record_artifacts` (src/runlib.rs lines 20-58) -/

/-- Strip every occurrence of the two-character pattern `./`, scanning left
to right without overlap: the embedding of Rust's
`String::replace("./", "")` on the character list. -/
def replaceDotSlash : List Char → List Char
  | '.' :: '/' :: rest => replaceDotSlash rest
  | c :: rest => c :: replaceDotSlash rest
  | [] => []

/-- Line 52 of runlib.rs: `entry_path.to_str().unwrap().to_string().replace("./", "")`
(the `unwrap` itself is modelled at the call site). -/
def normalizePath (s : String) : String := ⟨replaceDotSlash s.data⟩

/-- Does the character list begin with `./`? -/
def startsDotSlash : List Char → Bool
  | '.' :: '/' :: _ => true
  | _ => false

/-- Modelled from the spec: `VirtualTargetPath::new` lives in the crate's
models module, which is not part of the sources under review; the spec
says a `VirtualTargetPath` is never empty and never begins with `./`, and
that constructing one from an unnormalized or empty string fails with a
validation error.  A successfully validated path is carried as its string. -/
def VirtualTargetPath.new (s : String) : Except Err String :=
  if s.data = [] then .error (.validationError "empty path")
  else if startsDotSlash s.data = true then .error (.validationError "unnormalized path")
  else .ok s

/-- One traversal entry as the environment presents it to the loop body:
the result of `entry.path().to_str()` and the results of the fallible
calls the body makes on the entry.  Digest sets are abstracted to an
opaque string. -/
structure FsEntry where
  pathStr : Option String
  metaR : Except Err Bool
  openR : Except Err Unit
  hashR : Except Err String

/-- One item yielded by the `WalkDir` iterator: either an `Err` (with the
message interpolated into `"Walkdir Error: {}"`) or an entry. -/
inductive WalkEntry where
  | errE (msg : String)
  | okE (e : FsEntry)

/-- An artifact inventory: `BTreeMap<VirtualTargetPath, TargetDescription>`. -/
abbrev Inventory := List (String × String)

/-- The body of the inner loop of `record_artifacts` for one traversal
entry.  `none` is a panic (the `unwrap` on a non-UTF-8 path); `some
(.error e)` is an early `return Err(e)`; `some (.ok acc)` continues with
the grown inventory. -/
def procEntry (acc : Inventory) : WalkEntry → Option (Except Err Inventory)
  | .errE m => some (.error (.ioError ("Walkdir Error: " ++ m)))
  | .okE e =>
    match e.metaR with
    | .error er => some (.error er)
    | .ok isFile =>
      if isFile then
        match e.openR with
        | .error er => some (.error er)
        | .ok _ =>
          match e.hashR with
          | .error er => some (.error er)
          | .ok h =>
            match e.pathStr with
            | none => none
            | some s =>
              match VirtualTargetPath.new (normalizePath s) with
              | .error er => some (.error er)
              | .ok vtp => some (.ok (Smap.insert acc vtp h))
      else some (.ok acc)

/-- The inner loop of `record_artifacts`: process the walk of one root. -/
def recordWalk (acc : Inventory) : List WalkEntry → Option (Except Err Inventory)
  | [] => some (.ok acc)
  | en :: rest =>
    match procEntry acc en with
    | none => none
    | some (.error er) => some (.error er)
    | some (.ok acc') => recordWalk acc' rest

/-- The outer loop of `record_artifacts` over the passed roots.  `walk`
is the traversal oracle: the sequence `WalkDir::new(path)` yields. -/
def recordRoots (walk : String → List WalkEntry) (acc : Inventory) :
    List String → Option (Except Err Inventory)
  | [] => some (.ok acc)
  | r :: rs =>
    match recordWalk acc (walk r) with
    | none => none
    | some (.error er) => some (.error er)
    | some (.ok acc') => recordRoots walk acc' rs

/-- `record_artifacts(paths)` from src/runlib.rs lines 20-58. -/
def record_artifacts (walk : String → List WalkEntry) (paths : List String) :
    Option (Except Err Inventory) :=
  recordRoots walk [] paths

/-! ## `run_command` (src/runlib.rs lines 64-106) -/

/-- What one process execution gives back: the `from_utf8` decodings of the
captured streams (an `Except` whose error carries the `Utf8Error`
message), `output.status.code()`, and the results of echoing the raw
bytes to the parent's stdout/stderr. -/
structure RunOutput where
  stdoutDec : Except String String
  stderrDec : Except String String
  statusCode : Option Int
  writeOutR : Except Err Unit
  writeErrR : Except Err Unit

/-- The environment of one `in_toto_run` call: the filesystem traversal as
observed while recording materials (`walk1`) and while recording products
(`walk2`, after the command ran), and the process-execution oracle
(`Command::new(exe).args(rest).output()`). -/
structure World where
  walk1 : String → List WalkEntry
  exec : String → List String → Except Err RunOutput
  walk2 : String → List WalkEntry

/-- Remap a `from_utf8` failure exactly as lines 78-95 of runlib.rs do. -/
def decodeUtf8 : Except String String → Except Err String
  | .ok s => .ok s
  | .error m => .error (.ioError ("Utf8Error: " ++ m))

/-- The fixed string recorded when `output.status.code()` is `None`
(process terminated by a signal), runlib.rs line 98. -/
def sentinelSignal : String := "Process terminated by signal"

/-- Lines 96-99 of runlib.rs: the recorded `return-value` string. -/
def statusString : Option Int → String
  | some code => toString code
  | none => sentinelSignal

/-- `run_command(cmd_args)` from src/runlib.rs lines 64-106.  `none` is the
panic of the index `cmd_args[0]` on an empty slice; otherwise the stages
run in source order: launch, echo stdout, echo stderr, decode stdout,
decode stderr, build the byproducts map. -/
def run_command (w : World) (cmd_args : List String) :
    Option (Except Err (List (String × String))) :=
  match cmd_args with
  | [] => none
  | exe :: rest =>
    some (match w.exec exe rest with
      | .error er => .error er
      | .ok output =>
        match output.writeOutR with
        | .error er => .error er
        | .ok _ =>
          match output.writeErrR with
          | .error er => .error er
          | .ok _ =>
            match decodeUtf8 output.stdoutDec with
            | .error er => .error er
            | .ok stdout =>
              match decodeUtf8 output.stderrDec with
              | .error er => .error er
              | .ok stderr =>
                .ok (Smap.insert (Smap.insert (Smap.insert [] "stdout" stdout)
                  "stderr" stderr) "return-value" (statusString output.statusCode)))

/-! ## `in_toto_run` (src/runlib.rs lines 110-148) -/

/-- The assembled link metadata. -/
structure Link where
  name : String
  materials : Inventory
  products : Inventory
  byproducts : List (String × String)
deriving DecidableEq, Repr

/-- Modelled from the spec: `LinkMetadataBuilder::build` and `Link::from`
live in the crate's models module, which is not part of the sources under
review; the spec says assembly performs structural validation (non-empty
name, well-formed inventories) and any violation fails with a validation
error.  The inventories are well-formed by construction here, so the
modelled check is the non-empty name. -/
def buildLink (name : String) (materials : Inventory)
    (byproducts : List (String × String)) (products : Inventory) : Except Err Link :=
  if name = "" then .error (.validationError "empty record name")
  else .ok { name := name, materials := materials, products := products,
             byproducts := byproducts }

/-- `in_toto_run(name, material_paths, product_paths, cmd_args, key)` from
src/runlib.rs lines 110-148.  The `key` parameter is accepted and unused,
as in the source (signing is a TODO there). -/
def in_toto_run (w : World) (name : String)
    (material_paths product_paths cmd_args : List String) (key : Option Unit) :
    Option (Except Err Link) :=
  match record_artifacts w.walk1 material_paths with
  | none => none
  | some (.error e) => some (.error e)
  | some (.ok materials) =>
    match run_command w cmd_args with
    | none => none
    | some (.error e) => some (.error e)
    | some (.ok byproducts) =>
      match record_artifacts w.walk2 product_paths with
      | none => none
      | some (.error e) => some (.error e)
      | some (.ok products) => some (buildLink name materials byproducts products)

/-! ## `ByProducts` (src/models/link/byproducts.rs) -/

/-- The `ByProducts` struct: fixed fields plus the open extension mapping
(`other_fields`, a `BTreeMap<String, String>` kept in canonical sorted
form). -/
structure ByProducts where
  return_value : Int
  stderr : String
  stdout : String
  other_fields : List (String × String)
deriving DecidableEq, Repr

/-- `ByProducts::new`. -/
def ByProducts.new : ByProducts :=
  { return_value := 0, stderr := "", stdout := "", other_fields := [] }

/-- `ByProducts::set_return_value`. -/
def ByProducts.set_return_value (b : ByProducts) (v : Int) : ByProducts :=
  { b with return_value := v }

/-- `ByProducts::set_stderr`. -/
def ByProducts.set_stderr (b : ByProducts) (s : String) : ByProducts :=
  { b with stderr := s }

/-- `ByProducts::set_stdout`. -/
def ByProducts.set_stdout (b : ByProducts) (s : String) : ByProducts :=
  { b with stdout := s }

/-- `ByProducts::set_other_fields`: replace the whole extension mapping. -/
def ByProducts.set_other_fields (b : ByProducts) (m : List (String × String)) : ByProducts :=
  { b with other_fields := m }

/-- `ByProducts::set_other_field`: `self.other_fields.insert(key, value)`. -/
def ByProducts.set_other_field (b : ByProducts) (k v : String) : ByProducts :=
  { b with other_fields := Smap.insert b.other_fields k v }

/-- A JSON value, restricted to the shapes the `ByProducts` wire form
uses. -/
inductive JVal where
  | jstr (s : String)
  | jint (n : Int)
deriving DecidableEq, Repr

/-- `serde_json::to_value` on a `ByProducts`: the derived serializer emits
`return-value`, `stderr`, `stdout` in declaration order and then flattens
`other_fields` into the same object; building a `serde_json::Map` this way
lets a later entry overwrite an earlier one with the same key. -/
def serializeByProducts (b : ByProducts) : List (String × JVal) :=
  b.other_fields.foldl (fun o kv => Smap.insert o kv.1 (JVal.jstr kv.2))
    (Smap.insert (Smap.insert (Smap.insert [] "return-value" (JVal.jint b.return_value))
      "stderr" (JVal.jstr b.stderr)) "stdout" (JVal.jstr b.stdout))

/-- The string content of a JSON value, when it is a string. -/
def jvalAsStr : JVal → Option String
  | .jstr s => some s
  | _ => none

/-- Is the key not one of the three fixed field names? -/
def notFixedKey (k : String) : Bool :=
  !(k == "return-value" || k == "stderr" || k == "stdout")

/-- Require every remaining entry to be a JSON string, as deserializing
into the flattened `BTreeMap<String, String>` does. -/
def collectStrings : List (String × JVal) → Option (List (String × String))
  | [] => some []
  | kv :: rest =>
    match jvalAsStr kv.2 with
    | some s =>
      match collectStrings rest with
      | some tail => some ((kv.1, s) :: tail)
      | none => none
    | none => none

/-- `serde_json::from_value` for `ByProducts`: the derived deserializer
takes `return-value` as an integer and `stderr`/`stdout` as strings, and
the `serde(flatten)` field collects every remaining entry, each of which
must be a string. -/
def deserializeByProducts (o : List (String × JVal)) : Option ByProducts :=
  match Smap.find? o "return-value", Smap.find? o "stderr", Smap.find? o "stdout" with
  | some (.jint rv), some (.jstr se), some (.jstr so) =>
    match collectStrings (o.filter (fun kv => notFixedKey kv.1)) with
    | some other =>
      some { return_value := rv, stderr := se, stdout := so, other_fields := other }
    | none => none
  | _, _, _ => none

/-! ## Support lemmas about the traversal loops -/

theorem recordWalk_append :
    ∀ (xs ys : List WalkEntry) (acc : Inventory),
      recordWalk acc (xs ++ ys) =
        match recordWalk acc xs with
        | none => none
        | some (.error e) => some (.error e)
        | some (.ok acc') => recordWalk acc' ys := by
  intro xs
  induction xs with
  | nil => intro ys acc; simp [recordWalk]
  | cons en rest ih =>
    intro ys acc
    simp only [List.cons_append, recordWalk]
    cases procEntry acc en with
    | none => rfl
    | some r =>
      cases r with
      | error e => rfl
      | ok acc' => exact ih ys acc'

theorem recordRoots_append (walk : String → List WalkEntry) :
    ∀ (xs ys : List String) (acc : Inventory),
      recordRoots walk acc (xs ++ ys) =
        match recordRoots walk acc xs with
        | none => none
        | some (.error e) => some (.error e)
        | some (.ok acc') => recordRoots walk acc' ys := by
  intro xs
  induction xs with
  | nil => intro ys acc; simp [recordRoots]
  | cons r rest ih =>
    intro ys acc
    simp only [List.cons_append, recordRoots]
    cases recordWalk acc (walk r) with
    | none => rfl
    | some res =>
      cases res with
      | error e => rfl
      | ok acc' => exact ih ys acc'

/-- Does processing the entry stay on the success path (no walk error, no
metadata/open/hash error, a UTF-8 path, a valid normalized path)? -/
def entryOkB : WalkEntry → Bool
  | .errE _ => false
  | .okE e =>
    match e.metaR with
    | .error _ => false
    | .ok isFile =>
      if isFile then
        match e.openR, e.hashR, e.pathStr with
        | .ok _, .ok _, some s =>
          match VirtualTargetPath.new (normalizePath s) with
          | .ok _ => true
          | .error _ => false
        | _, _, _ => false
      else true

/-- The binding a successful entry contributes to the inventory: none for
directories, the normalized path and digest for a regular file. -/
def filesOfEntry : WalkEntry → List (String × String)
  | .errE _ => []
  | .okE e =>
    match e.metaR with
    | .ok true =>
      match e.hashR, e.pathStr with
      | .ok h, some s =>
        match VirtualTargetPath.new (normalizePath s) with
        | .ok vtp => [(vtp, h)]
        | .error _ => []
      | _, _ => []
    | _ => []

/-- The bindings contributed by one root's walk, in traversal order. -/
def filesOfWalk (es : List WalkEntry) : List (String × String) :=
  (es.map filesOfEntry).flatten

/-- The bindings contributed by all roots, in traversal order. -/
def filesOfRoots (walk : String → List WalkEntry) (rs : List String) :
    List (String × String) :=
  (rs.map (fun r => filesOfWalk (walk r))).flatten

theorem procEntry_of_ok (en : WalkEntry) (acc : Inventory) (h : entryOkB en = true) :
    procEntry acc en =
      some (.ok ((filesOfEntry en).foldl (fun m kv => Smap.insert m kv.1 kv.2) acc)) := by
  cases en with
  | errE m => simp [entryOkB] at h
  | okE e =>
    cases hm : e.metaR with
    | error er => simp [entryOkB, hm] at h
    | ok isFile =>
      cases isFile with
      | false => simp [procEntry, filesOfEntry, hm]
      | true =>
        cases ho : e.openR with
        | error er => simp [entryOkB, hm, ho] at h
        | ok u =>
          cases hh : e.hashR with
          | error er => simp [entryOkB, hm, ho, hh] at h
          | ok dig =>
            cases hp : e.pathStr with
            | none => simp [entryOkB, hm, ho, hh, hp] at h
            | some s =>
              cases hv : VirtualTargetPath.new (normalizePath s) with
              | error er => simp [entryOkB, hm, ho, hh, hp, hv] at h
              | ok vtp => simp [procEntry, filesOfEntry, hm, ho, hh, hp, hv]

theorem recordWalk_of_ok :
    ∀ (es : List WalkEntry) (acc : Inventory), (∀ en ∈ es, entryOkB en = true) →
      recordWalk acc es =
        some (.ok ((filesOfWalk es).foldl (fun m kv => Smap.insert m kv.1 kv.2) acc)) := by
  intro es
  induction es with
  | nil => intro acc _; simp [recordWalk, filesOfWalk]
  | cons en rest ih =>
    intro acc hall
    have h1 := procEntry_of_ok en acc (hall en (by simp))
    simp only [recordWalk, h1]
    rw [ih _ (fun x hx => hall x (by simp [hx]))]
    have : filesOfWalk (en :: rest) = filesOfEntry en ++ filesOfWalk rest := by
      simp [filesOfWalk]
    rw [this, List.foldl_append]

theorem recordRoots_of_ok :
    ∀ (rs : List String) (walk : String → List WalkEntry) (acc : Inventory),
      (∀ r ∈ rs, ∀ en ∈ walk r, entryOkB en = true) →
      recordRoots walk acc rs =
        some (.ok ((filesOfRoots walk rs).foldl (fun m kv => Smap.insert m kv.1 kv.2) acc)) := by
  intro rs
  induction rs with
  | nil => intro walk acc _; simp [recordRoots, filesOfRoots]
  | cons r rest ih =>
    intro walk acc hall
    have h1 := recordWalk_of_ok (walk r) acc (hall r (by simp))
    simp only [recordRoots, h1]
    rw [ih walk _ (fun x hx => hall x (by simp [hx]))]
    have : filesOfRoots walk (r :: rest) = filesOfWalk (walk r) ++ filesOfRoots walk rest := by
      simp [filesOfRoots]
    rw [this, List.foldl_append]

/-- Does the entry carry a UTF-8 path (so that `to_str().unwrap()` cannot
panic on it)?  Walk errors carry no path. -/
def entryPathValid : WalkEntry → Bool
  | .errE _ => true
  | .okE e => e.pathStr.isSome

theorem procEntry_ne_none (en : WalkEntry) (acc : Inventory)
    (h : entryPathValid en = true) : procEntry acc en ≠ none := by
  cases en with
  | errE m => simp [procEntry]
  | okE e =>
    cases hm : e.metaR with
    | error er => simp [procEntry, hm]
    | ok isFile =>
      cases isFile with
      | false => simp [procEntry, hm]
      | true =>
        cases ho : e.openR with
        | error er => simp [procEntry, hm, ho]
        | ok u =>
          cases hh : e.hashR with
          | error er => simp [procEntry, hm, ho, hh]
          | ok dig =>
            cases hp : e.pathStr with
            | none => simp [entryPathValid, hp] at h
            | some s =>
              cases hv : VirtualTargetPath.new (normalizePath s) with
              | error er => simp [procEntry, hm, ho, hh, hp, hv]
              | ok vtp => simp [procEntry, hm, ho, hh, hp, hv]

theorem recordWalk_isSome :
    ∀ (es : List WalkEntry) (acc : Inventory), (∀ en ∈ es, entryPathValid en = true) →
      (recordWalk acc es).isSome = true := by
  intro es
  induction es with
  | nil => intro acc _; simp [recordWalk]
  | cons en rest ih =>
    intro acc hall
    simp only [recordWalk]
    cases hpe : procEntry acc en with
    | none => exact absurd hpe (procEntry_ne_none en acc (hall en (by simp)))
    | some r =>
      cases r with
      | error e => simp
      | ok acc' => exact ih acc' (fun x hx => hall x (by simp [hx]))

theorem recordRoots_isSome :
    ∀ (rs : List String) (walk : String → List WalkEntry) (acc : Inventory),
      (∀ r ∈ rs, ∀ en ∈ walk r, entryPathValid en = true) →
      (recordRoots walk acc rs).isSome = true := by
  intro rs
  induction rs with
  | nil => intro walk acc _; simp [recordRoots]
  | cons r rest ih =>
    intro walk acc hall
    simp only [recordRoots]
    cases hw : recordWalk acc (walk r) with
    | none =>
      have := recordWalk_isSome (walk r) acc (hall r (by simp))
      rw [hw] at this
      cases this
    | some res =>
      cases res with
      | error e => simp
      | ok acc' => exact ih walk acc' (fun x hx => hall x (by simp [hx]))

/-! ## Support lemmas for the return-value sentinel -/

theorem digitChar_toNat_le (n : Nat) (h : n < 10) : (Nat.digitChar n).toNat ≤ 57 := by
  interval_cases n <;> decide

theorem toDigitsCore_toNat_le :
    ∀ (fuel n : Nat) (ds : List Char), (∀ c ∈ ds, c.toNat ≤ 57) →
      ∀ c ∈ Nat.toDigitsCore 10 fuel n ds, c.toNat ≤ 57 := by
  intro fuel
  induction fuel with
  | zero => intro n ds hds c hc; exact hds c hc
  | succ fuel ih =>
    intro n ds hds c hc
    rw [show Nat.toDigitsCore 10 (fuel + 1) n ds =
        if n / 10 = 0 then (n % 10).digitChar :: ds
        else Nat.toDigitsCore 10 fuel (n / 10) ((n % 10).digitChar :: ds) by
      simp [Nat.toDigitsCore]] at hc
    have hmod : (n % 10).digitChar.toNat ≤ 57 :=
      digitChar_toNat_le (n % 10) (Nat.mod_lt n (by norm_num))
    by_cases hq : n / 10 = 0
    · rw [if_pos hq] at hc
      rcases List.mem_cons.mp hc with h | h
      · exact h ▸ hmod
      · exact hds c h
    · rw [if_neg hq] at hc
      refine ih (n / 10) ((n % 10).digitChar :: ds) ?_ c hc
      intro x hx
      rcases List.mem_cons.mp hx with h | h
      · exact h ▸ hmod
      · exact hds x h

theorem natRepr_toNat_le (n : Nat) : ∀ c ∈ (Nat.repr n).data, c.toNat ≤ 57 := by
  intro c hc
  have : (Nat.repr n).data = Nat.toDigitsCore 10 (n + 1) n [] := rfl
  rw [this] at hc
  exact toDigitsCore_toNat_le (n + 1) n [] (by simp) c hc

/-- Every character of the decimal rendering of an integer is a digit or
the minus sign, hence has code point at most 57. -/
theorem intToString_toNat_le (i : Int) : ∀ c ∈ (toString i).data, c.toNat ≤ 57 := by
  intro c hc
  cases i with
  | ofNat m => exact natRepr_toNat_le m c hc
  | negSucc m =>
    have hdata : (toString (Int.negSucc m)).data = '-' :: (Nat.repr (m + 1)).data := by
      show (("-" ++ Nat.repr (m + 1)) : String).data = '-' :: (Nat.repr (m + 1)).data
      cases hrepr : Nat.repr (m + 1) with
      | mk l => rfl
    rw [hdata] at hc
    rcases List.mem_cons.mp hc with h | h
    · rw [h]; decide
    · exact natRepr_toNat_le (m + 1) c h

/-- The fixed signal sentinel is not the decimal rendering of any exit
code. -/
theorem sentinel_ne_code (i : Int) : toString i ≠ sentinelSignal := by
  intro h
  have hP : ('P' : Char) ∈ sentinelSignal.data := by decide
  rw [← h] at hP
  have := intToString_toNat_le i 'P' hP
  revert this
  decide

/-! ## Support lemmas for serialization -/

theorem collectStrings_map_jstr :
    ∀ l : List (String × String),
      collectStrings (l.map (fun kv => (kv.1, JVal.jstr kv.2))) = some l := by
  intro l
  induction l with
  | nil => rfl
  | cons kv rest ih => simp [collectStrings, jvalAsStr, ih]

theorem notFixedKey_spec (k : String) :
    notFixedKey k = true ↔ (k ≠ "return-value" ∧ k ≠ "stderr" ∧ k ≠ "stdout") := by
  simp [notFixedKey, not_or]
  tauto

/-- `run_command` reads the world only through the process oracle. -/
theorem run_command_congr (w w' : World) (h : w'.exec = w.exec) (ca : List String) :
    run_command w' ca = run_command w ca := by
  cases ca with
  | nil => rfl
  | cons exe rest => simp [run_command, h]

/-! ## Claims about `in_toto_run` and `record_artifacts` -/

/-- C1: `in_toto_run` records materials, runs the command, records
products and assembles the link, in that strict order; whichever stage
fails first, its error is returned unchanged, and the stages after it are
never consulted (the result does not depend on their oracles). -/
theorem in_toto_run_stage_order (w : World) (name : String)
    (mp pp ca : List String) (key : Option Unit) :
    (∀ e, record_artifacts w.walk1 mp = some (.error e) →
        in_toto_run w name mp pp ca key = some (.error e) ∧
        ∀ w' : World, w'.walk1 = w.walk1 →
          in_toto_run w' name mp pp ca key = some (.error e)) ∧
    (∀ mats e, record_artifacts w.walk1 mp = some (.ok mats) →
        run_command w ca = some (.error e) →
        in_toto_run w name mp pp ca key = some (.error e) ∧
        ∀ w' : World, w'.walk1 = w.walk1 → w'.exec = w.exec →
          in_toto_run w' name mp pp ca key = some (.error e)) ∧
    (∀ mats bp e, record_artifacts w.walk1 mp = some (.ok mats) →
        run_command w ca = some (.ok bp) →
        record_artifacts w.walk2 pp = some (.error e) →
        in_toto_run w name mp pp ca key = some (.error e)) ∧
    (∀ mats bp prods, record_artifacts w.walk1 mp = some (.ok mats) →
        run_command w ca = some (.ok bp) →
        record_artifacts w.walk2 pp = some (.ok prods) →
        in_toto_run w name mp pp ca key = some (buildLink name mats bp prods)) := by
  refine ⟨?_, ?_, ?_, ?_⟩
  · intro e h1
    constructor
    · simp [in_toto_run, h1]
    · intro w' hw
      rw [← hw] at h1
      simp [in_toto_run, h1]
  · intro mats e h1 h2
    constructor
    · simp [in_toto_run, h1, h2]
    · intro w' hw hex
      have h2' : run_command w' ca = some (.error e) :=
        (run_command_congr w w' hex ca).trans h2
      rw [← hw] at h1
      simp [in_toto_run, h1, h2']
  · intro mats bp e h1 h2 h3
    simp [in_toto_run, h1, h2, h3]
  · intro mats bp prods h1 h2 h3
    simp [in_toto_run, h1, h2, h3]

/-- Witness for C1: a world whose material traversal fails immediately
propagates exactly the walkdir error, and a world where every stage
succeeds assembles the link. -/
theorem in_toto_run_stage_order_witness :
    in_toto_run { walk1 := fun _ => [.errE "boom"],
                  exec := fun _ _ => .error (.ioError "unused"),
                  walk2 := fun _ => [] } "build" ["m"] ["p"] ["sh"] none =
      some (.error (.ioError "Walkdir Error: boom")) ∧
    in_toto_run { walk1 := fun _ => [],
                  exec := fun _ _ => .ok { stdoutDec := .ok "",
                                           stderrDec := .ok "",
                                           statusCode := some 0,
                                           writeOutR := .ok (),
                                           writeErrR := .ok () },
                  walk2 := fun _ => [] } "build" ["m"] ["p"] ["sh"] none =
      some (.ok { name := "build", materials := [], products := [],
                  byproducts := [("return-value", "0"), ("stderr", ""), ("stdout", "")] }) := by
  constructor
  · exact ((in_toto_run_stage_order
      { walk1 := fun _ => [.errE "boom"],
        exec := fun _ _ => .error (.ioError "unused"),
        walk2 := fun _ => [] } "build" ["m"] ["p"] ["sh"] none).1
      (.ioError "Walkdir Error: boom") rfl).1
  · exact (in_toto_run_stage_order
      { walk1 := fun _ => [],
        exec := fun _ _ => .ok { stdoutDec := .ok "",
                                 stderrDec := .ok "",
                                 statusCode := some 0,
                                 writeOutR := .ok (),
                                 writeErrR := .ok () },
        walk2 := fun _ => [] } "build" ["m"] ["p"] ["sh"] none).2.2.2
      [] [("return-value", "0"), ("stderr", ""), ("stdout", "")] [] rfl rfl rfl

/-- C2: `record_artifacts` is all-or-nothing for every input: a root
whose walk fails at once (a non-existent root) returns the walkdir error;
a valid but empty root contributes an empty inventory; and wherever the
first failing entry sits — at any position of any root, after any
successfully recorded earlier roots, with any entries and any roots after
it — the whole call returns exactly that entry's error and no partial
inventory. -/
theorem record_artifacts_all_or_nothing :
    (∀ (walk : String → List WalkEntry) (r m : String), walk r = [.errE m] →
        record_artifacts walk [r] = some (.error (.ioError ("Walkdir Error: " ++ m)))) ∧
    (∀ (walk : String → List WalkEntry) (r : String) (e : FsEntry),
        walk r = [.okE e] → e.metaR = .ok false →
        record_artifacts walk [r] = some (.ok [])) ∧
    (∀ (acc acc' : Inventory) (pre post : List WalkEntry) (en : WalkEntry) (er : Err),
        recordWalk acc pre = some (.ok acc') → procEntry acc' en = some (.error er) →
        recordWalk acc (pre ++ en :: post) = some (.error er)) ∧
    (∀ (walk : String → List WalkEntry) (rs1 : List String) (r : String)
        (rs2 : List String) (acc acc' : Inventory) (pre post : List WalkEntry)
        (en : WalkEntry) (er : Err),
        recordRoots walk [] rs1 = some (.ok acc) →
        walk r = pre ++ en :: post →
        recordWalk acc pre = some (.ok acc') →
        procEntry acc' en = some (.error er) →
        record_artifacts walk (rs1 ++ r :: rs2) = some (.error er)) := by
  refine ⟨?_, ?_, ?_, ?_⟩
  · intro walk r m h
    simp [record_artifacts, recordRoots, h, recordWalk, procEntry]
  · intro walk r e h hm
    simp [record_artifacts, recordRoots, h, recordWalk, procEntry, hm]
  · intro acc acc' pre post en er h1 h2
    rw [recordWalk_append, h1]
    simp [recordWalk, h2]
  · intro walk rs1 r rs2 acc acc' pre post en er hrs1 hwalk hpre hproc
    simp only [record_artifacts]
    rw [recordRoots_append, hrs1]
    simp only [recordRoots]
    rw [hwalk, recordWalk_append, hpre]
    simp [recordWalk, hproc]

/-- Witness for C2: a missing root fails with the walkdir error; an empty
root yields the empty inventory; a good entry followed by a failing hash
aborts with the hash error even though more entries follow; and a hash
failure in the second entry of the second root — after the first root was
fully recorded and with a further root still pending — aborts the whole
call with exactly that error. -/
theorem record_artifacts_all_or_nothing_witness :
    record_artifacts (fun _ => [.errE "boom"]) ["gone"] =
      some (.error (.ioError "Walkdir Error: boom")) ∧
    record_artifacts (fun _ => [.okE { pathStr := some "d",
                                       metaR := .ok false,
                                       openR := .ok (),
                                       hashR := .ok "unused" }]) ["d"] = some (.ok []) ∧
    recordWalk []
      [.okE { pathStr := some "a", metaR := .ok true, openR := .ok (), hashR := .ok "h1" },
       .okE { pathStr := some "b", metaR := .ok true, openR := .ok (),
              hashR := .error (.ioError "bad hash") },
       .okE { pathStr := some "c", metaR := .ok true, openR := .ok (), hashR := .ok "h3" }] =
      some (.error (.ioError "bad hash")) ∧
    record_artifacts
      (fun r => if r = "good"
        then [.okE { pathStr := some "a", metaR := .ok true,
                     openR := .ok (), hashR := .ok "h1" }]
        else if r = "bad"
        then [.okE { pathStr := some "c", metaR := .ok true,
                     openR := .ok (), hashR := .ok "h2" },
              .okE { pathStr := some "b", metaR := .ok true,
                     openR := .ok (), hashR := .error (.ioError "bad hash") }]
        else [.errE "later"])
      ["good", "bad", "more"] = some (.error (.ioError "bad hash")) := by
  refine ⟨?_, ?_, ?_, ?_⟩
  · exact record_artifacts_all_or_nothing.1 (fun _ => [.errE "boom"]) "gone" "boom" rfl
  · exact record_artifacts_all_or_nothing.2.1
      (fun _ => [.okE { pathStr := some "d",
                        metaR := .ok false,
                        openR := .ok (),
                        hashR := .ok "unused" }]) "d"
      { pathStr := some "d", metaR := .ok false, openR := .ok (), hashR := .ok "unused" } rfl rfl
  · exact record_artifacts_all_or_nothing.2.2.1 [] [("a", "h1")]
      [.okE { pathStr := some "a", metaR := .ok true, openR := .ok (), hashR := .ok "h1" }]
      [.okE { pathStr := some "c", metaR := .ok true, openR := .ok (), hashR := .ok "h3" }]
      (.okE { pathStr := some "b", metaR := .ok true, openR := .ok (),
              hashR := .error (.ioError "bad hash") })
      (.ioError "bad hash") rfl rfl
  · exact record_artifacts_all_or_nothing.2.2.2
      (fun r => if r = "good"
        then [.okE { pathStr := some "a", metaR := .ok true,
                     openR := .ok (), hashR := .ok "h1" }]
        else if r = "bad"
        then [.okE { pathStr := some "c", metaR := .ok true,
                     openR := .ok (), hashR := .ok "h2" },
              .okE { pathStr := some "b", metaR := .ok true,
                     openR := .ok (), hashR := .error (.ioError "bad hash") }]
        else [.errE "later"])
      ["good"] "bad" ["more"] [("a", "h1")] [("a", "h1"), ("c", "h2")]
      [.okE { pathStr := some "c", metaR := .ok true,
              openR := .ok (), hashR := .ok "h2" }] []
      (.okE { pathStr := some "b", metaR := .ok true,
              openR := .ok (), hashR := .error (.ioError "bad hash") })
      (.ioError "bad hash") rfl rfl rfl rfl

/-- C3: the code normalizes with `replace("./", "")`, which removes every
occurrence of `./`, not only a leading one: a regular file under a
directory literally named `a.` is recorded under the mangled key `ab`
instead of `a./b`. -/
theorem record_artifacts_interior_dotslash :
    record_artifacts (fun _ => [.okE { pathStr := some "a./b",
                                       metaR := .ok true,
                                       openR := .ok (),
                                       hashR := .ok "h1" }]) ["r"] =
      some (.ok [("ab", "h1")]) ∧
    normalizePath "a./b" = "ab" ∧ ("ab" : String) ≠ "a./b" := by
  refine ⟨rfl, rfl, by decide⟩

/-- C9: `run_command` is defined for every non-empty argument list (the
index accesses are in bounds and a `Result` comes back), while the empty
list hits the unguarded `cmd_args[0]` and panics rather than returning an
error. -/
theorem run_command_nonempty_argv :
    (∀ (w : World) (args : List String), args ≠ [] →
        (run_command w args).isSome = true) ∧
    (∀ w : World, run_command w [] = none) := by
  constructor
  · intro w args h
    cases args with
    | nil => exact absurd rfl h
    | cons exe rest => simp [run_command]
  · intro w
    rfl

/-- Witness for C9: a concrete single-element argv produces a result. -/
theorem run_command_nonempty_argv_witness :
    (run_command { walk1 := fun _ => [],
                   exec := fun _ _ => .error (.ioError "off"),
                   walk2 := fun _ => [] } ["sh"]).isSome = true :=
  run_command_nonempty_argv.1
    { walk1 := fun _ => [],
      exec := fun _ _ => .error (.ioError "off"),
      walk2 := fun _ => [] } ["sh"] (by simp)

/-- C4: on any traversal in which every entry succeeds, `record_artifacts`
succeeds — duplicate normalized paths are not an error — and the
inventory is the fold of insertions in traversal order, so a lookup
returns the digest of the file inserted last for that path. -/
theorem record_artifacts_last_wins (walk : String → List WalkEntry)
    (paths : List String) (k : String)
    (hall : ∀ r ∈ paths, ∀ en ∈ walk r, entryOkB en = true) :
    record_artifacts walk paths =
      some (.ok ((filesOfRoots walk paths).foldl
        (fun m kv => Smap.insert m kv.1 kv.2) [])) ∧
    Smap.find? ((filesOfRoots walk paths).foldl
        (fun m kv => Smap.insert m kv.1 kv.2) []) k =
      Smap.lastVal (filesOfRoots walk paths) k := by
  constructor
  · exact recordRoots_of_ok paths walk [] hall
  · rw [Smap.find?_foldl_insert]
    cases Smap.lastVal (filesOfRoots walk paths) k with
    | none => rfl
    | some v => rfl

/-- Witness for C4: two roots record files that normalize to the same
path `f` (one spelled `./f`); the call succeeds and keeps the digest of
the one inserted last. -/
theorem record_artifacts_last_wins_witness :
    record_artifacts
      (fun r => if r = "r1"
        then [.okE { pathStr := some "./f", metaR := .ok true,
                     openR := .ok (), hashR := .ok "h1" }]
        else [.okE { pathStr := some "f", metaR := .ok true,
                     openR := .ok (), hashR := .ok "h2" }])
      ["r1", "r2"] = some (.ok [("f", "h2")]) ∧
    Smap.find? [("f", "h2")] "f" = Smap.lastVal [("f", "h1"), ("f", "h2")] "f" :=
  record_artifacts_last_wins
    (fun r => if r = "r1"
      then [.okE { pathStr := some "./f", metaR := .ok true,
                   openR := .ok (), hashR := .ok "h1" }]
      else [.okE { pathStr := some "f", metaR := .ok true,
                   openR := .ok (), hashR := .ok "h2" }])
    ["r1", "r2"] "f" (by decide)

/-- C10: `record_artifacts` is total when every traversed entry carries a
UTF-8 path, and a regular file with a non-UTF-8 path that is reached on
the success path makes the call panic (the unchecked `unwrap` of
`to_str()`) instead of returning an error. -/
theorem record_artifacts_utf8_panic :
    (∀ (walk : String → List WalkEntry) (paths : List String),
        (∀ r ∈ paths, ∀ en ∈ walk r, entryPathValid en = true) →
        (record_artifacts walk paths).isSome = true) ∧
    (∀ (walk : String → List WalkEntry) (r : String) (pre post : List WalkEntry)
        (fe : FsEntry) (acc' : Inventory) (dig : String),
        walk r = pre ++ WalkEntry.okE fe :: post →
        recordWalk [] pre = some (.ok acc') →
        fe.metaR = .ok true → fe.openR = .ok () → fe.hashR = .ok dig →
        fe.pathStr = none →
        record_artifacts walk [r] = none) := by
  constructor
  · intro walk paths h
    exact recordRoots_isSome paths walk [] h
  · intro walk r pre post fe acc' dig hwalk hpre hm ho hh hp
    simp only [record_artifacts, recordRoots, hwalk]
    rw [recordWalk_append, hpre]
    simp [recordWalk, procEntry, hm, ho, hh, hp]

/-- Witness for C10: an all-UTF-8 walk returns a result, and a regular
file whose path fails `to_str()` (modelled as `none`) panics. -/
theorem record_artifacts_utf8_panic_witness :
    (record_artifacts (fun _ => [.okE { pathStr := some "x",
                                        metaR := .ok true,
                                        openR := .ok (),
                                        hashR := .ok "h" }]) ["r"]).isSome = true ∧
    record_artifacts (fun _ => [.okE { pathStr := none,
                                       metaR := .ok true,
                                       openR := .ok (),
                                       hashR := .ok "h" }]) ["r"] = none := by
  constructor
  · exact record_artifacts_utf8_panic.1
      (fun _ => [.okE { pathStr := some "x",
                        metaR := .ok true,
                        openR := .ok (),
                        hashR := .ok "h" }]) ["r"] (by decide)
  · exact record_artifacts_utf8_panic.2
      (fun _ => [.okE { pathStr := none,
                        metaR := .ok true,
                        openR := .ok (),
                        hashR := .ok "h" }]) "r" [] []
      { pathStr := none, metaR := .ok true, openR := .ok (), hashR := .ok "h" }
      [] "h" rfl rfl rfl rfl rfl rfl

/-- C5: in every successful `run_command`, the recorded `return-value` is
the decimal rendering of `output.status.code()` when the process
terminated normally, and the fixed sentinel string when it was terminated
by a signal; the sentinel is not the rendering of any exit code. -/
theorem run_command_return_value :
    (∀ (w : World) (exe : String) (rest : List String) (output : RunOutput)
        (bp : List (String × String)),
        w.exec exe rest = .ok output →
        run_command w (exe :: rest) = some (.ok bp) →
        Smap.find? bp "return-value" = some (statusString output.statusCode) ∧
        (∀ code : Int, output.statusCode = some code →
            Smap.find? bp "return-value" = some (toString code)) ∧
        (output.statusCode = none →
            Smap.find? bp "return-value" = some sentinelSignal)) ∧
    (∀ i : Int, toString i ≠ sentinelSignal) := by
  constructor
  · intro w exe rest output bp hexec hrun
    simp only [run_command, hexec, Option.some.injEq] at hrun
    rcases h1 : output.writeOutR with er | u
    · rw [h1] at hrun; simp at hrun
    · rw [h1] at hrun
      rcases h2 : output.writeErrR with er | u'
      · rw [h2] at hrun; simp at hrun
      · rw [h2] at hrun
        rcases h3 : output.stdoutDec with m | so
        · rw [h3] at hrun; simp [decodeUtf8] at hrun
        · rw [h3] at hrun
          rcases h4 : output.stderrDec with m | se
          · rw [h4] at hrun; simp [decodeUtf8] at hrun
          · rw [h4] at hrun
            simp only [decodeUtf8, Except.ok.injEq] at hrun
            subst hrun
            refine ⟨Smap.find?_insert_self _ _ _, ?_, ?_⟩
            · intro code hc
              rw [Smap.find?_insert_self, hc]
              rfl
            · intro hc
              rw [Smap.find?_insert_self, hc]
              rfl
  · exact sentinel_ne_code

/-- Witness for C5: a signal-terminated run records exactly the sentinel. -/
theorem run_command_return_value_witness :
    Smap.find?
      [("return-value", "Process terminated by signal"), ("stderr", "e"), ("stdout", "o")]
      "return-value" = some sentinelSignal :=
  ((run_command_return_value.1
    { walk1 := fun _ => [],
      exec := fun _ _ => .ok { stdoutDec := .ok "o",
                               stderrDec := .ok "e",
                               statusCode := none,
                               writeOutR := .ok (),
                               writeErrR := .ok () },
      walk2 := fun _ => [] } "sh" []
    { stdoutDec := .ok "o", stderrDec := .ok "e", statusCode := none,
      writeOutR := .ok (), writeErrR := .ok () }
    [("return-value", "Process terminated by signal"), ("stderr", "e"), ("stdout", "o")]
    rfl rfl).2.2) rfl

/-- C8: a run of `sh -c "printf hello"` — whose process output is stdout
`hello`, empty stderr and normal exit code `0` — succeeds and records
stdout `hello`, stderr `` and return value `0`. -/
theorem run_command_printf_hello (w : World)
    (hsh : w.exec "sh" ["-c", "printf hello"] =
      .ok { stdoutDec := .ok "hello", stderrDec := .ok "",
            statusCode := some 0, writeOutR := .ok (), writeErrR := .ok () }) :
    run_command w ["sh", "-c", "printf hello"] =
      some (.ok [("return-value", "0"), ("stderr", ""), ("stdout", "hello")]) := by
  simp only [run_command, hsh]
  rfl

/-- Witness for C8: the theorem applied to a world realising the shell's
documented behavior for this command. -/
theorem run_command_printf_hello_witness :
    run_command
      { walk1 := fun _ => [],
        exec := fun _ _ => .ok { stdoutDec := .ok "hello",
                                 stderrDec := .ok "",
                                 statusCode := some 0,
                                 writeOutR := .ok (),
                                 writeErrR := .ok () },
        walk2 := fun _ => [] } ["sh", "-c", "printf hello"] =
      some (.ok [("return-value", "0"), ("stderr", ""), ("stdout", "hello")]) :=
  run_command_printf_hello
    { walk1 := fun _ => [],
      exec := fun _ _ => .ok { stdoutDec := .ok "hello",
                               stderrDec := .ok "",
                               statusCode := some 0,
                               writeOutR := .ok (),
                               writeErrR := .ok () },
      walk2 := fun _ => [] } rfl

/-- C7: `set_other_fields` destructively replaces the whole extension
mapping, discarding a field set earlier with `set_other_field`; and
`set_other_field` adds or overwrites exactly its own key. -/
theorem byproducts_set_other_fields_replace (b : ByProducts) (k v : String)
    (m : List (String × String)) (hno : Smap.find? m k = none) :
    ((b.set_other_field k v).set_other_fields m).other_fields = m ∧
    Smap.find? ((b.set_other_field k v).other_fields) k = some v ∧
    (∀ k', k' ≠ k →
        Smap.find? ((b.set_other_field k v).other_fields) k' =
          Smap.find? b.other_fields k') := by
  refine ⟨rfl, ?_, ?_⟩
  · exact Smap.find?_insert_self b.other_fields k v
  · intro k' hk'
    exact Smap.find?_insert_ne b.other_fields k k' v hk'

/-- Witness for C7: a concrete field set first is gone after the bulk
replace with a non-overlapping mapping. -/
theorem byproducts_set_other_fields_replace_witness :
    ((ByProducts.new.set_other_field "a" "1").set_other_fields
        [("b", "2")]).other_fields = [("b", "2")] ∧
    Smap.find? ((ByProducts.new.set_other_field "a" "1").other_fields) "a" = some "1" ∧
    (∀ k', k' ≠ "a" →
        Smap.find? ((ByProducts.new.set_other_field "a" "1").other_fields) k' =
          Smap.find? ByProducts.new.other_fields k') :=
  byproducts_set_other_fields_replace ByProducts.new "a" "1" [("b", "2")] rfl

/-- Folding string insertions wrapped in `jstr` is folding over the
`jstr`-mapped list. -/
theorem foldl_insert_jstr :
    ∀ (l : List (String × String)) (m : List (String × JVal)),
      l.foldl (fun o kv => Smap.insert o kv.1 (JVal.jstr kv.2)) m =
        (l.map (fun kv => (kv.1, JVal.jstr kv.2))).foldl
          (fun o kv => Smap.insert o kv.1 kv.2) m := by
  intro l
  induction l with
  | nil => intro m; rfl
  | cons kv rest ih =>
    intro m
    simp only [List.foldl_cons, List.map_cons]
    exact ih _

/-- C6 (counterexample): an extension key equal to the fixed field name
`stdout` is flattened onto the fixed field, so the roundtrip does not
restore the original value. -/
theorem byproducts_roundtrip_fixed_key_counterexample :
    deserializeByProducts (serializeByProducts
        (ByProducts.new.set_other_field "stdout" "x")) ≠
      some (ByProducts.new.set_other_field "stdout" "x") := by
  decide

/-- C6 (amended): serializing and deserializing restores any `ByProducts`
— any return value, any stdout/stderr strings, any extension mapping
including the empty one — provided no extension key equals one of the
fixed field names `return-value`, `stderr`, `stdout`. -/
theorem byproducts_roundtrip (b : ByProducts)
    (hsort : Smap.sortedKeysB b.other_fields = true)
    (hdisj : ∀ kv ∈ b.other_fields, notFixedKey kv.1 = true) :
    deserializeByProducts (serializeByProducts b) = some b := by
  obtain ⟨rv, se, so, other⟩ := b
  simp only at hsort hdisj
  have hotherPW : other.Pairwise Smap.keyLt := Smap.sortedKeysB_pairwise other hsort
  have hkvsPW : (other.map (fun kv => (kv.1, JVal.jstr kv.2))).Pairwise Smap.keyLt := by
    refine List.Pairwise.map _ ?_ hotherPW
    intro a b hab
    exact hab
  have hkeysne : ∀ kv ∈ other.map (fun kv => (kv.1, JVal.jstr kv.2)),
      kv.1 ≠ "return-value" ∧ kv.1 ≠ "stderr" ∧ kv.1 ≠ "stdout" := by
    intro kv hkv
    obtain ⟨kv0, hkv0, rfl⟩ := List.mem_map.mp hkv
    exact (notFixedKey_spec kv0.1).mp (hdisj kv0 hkv0)
  have hkeysfx : ∀ kv ∈ other.map (fun kv => (kv.1, JVal.jstr kv.2)),
      notFixedKey kv.1 = true := by
    intro kv hkv
    exact (notFixedKey_spec kv.1).mpr (hkeysne kv hkv)
  have hserEq : serializeByProducts ⟨rv, se, so, other⟩ =
      (other.map (fun kv => (kv.1, JVal.jstr kv.2))).foldl
        (fun o kv => Smap.insert o kv.1 kv.2)
        [("return-value", JVal.jint rv), ("stderr", JVal.jstr se),
         ("stdout", JVal.jstr so)] := by
    simp only [serializeByProducts]
    rw [foldl_insert_jstr]
    rfl
  rw [hserEq]
  have hf1 : Smap.find? ((other.map (fun kv => (kv.1, JVal.jstr kv.2))).foldl
      (fun o kv => Smap.insert o kv.1 kv.2)
      [("return-value", JVal.jint rv), ("stderr", JVal.jstr se),
       ("stdout", JVal.jstr so)]) "return-value" = some (JVal.jint rv) := by
    rw [Smap.find?_foldl_insert_of_not_mem _ _ _ (fun kv h => (hkeysne kv h).1)]
    rfl
  have hf2 : Smap.find? ((other.map (fun kv => (kv.1, JVal.jstr kv.2))).foldl
      (fun o kv => Smap.insert o kv.1 kv.2)
      [("return-value", JVal.jint rv), ("stderr", JVal.jstr se),
       ("stdout", JVal.jstr so)]) "stderr" = some (JVal.jstr se) := by
    rw [Smap.find?_foldl_insert_of_not_mem _ _ _ (fun kv h => (hkeysne kv h).2.1)]
    rfl
  have hf3 : Smap.find? ((other.map (fun kv => (kv.1, JVal.jstr kv.2))).foldl
      (fun o kv => Smap.insert o kv.1 kv.2)
      [("return-value", JVal.jint rv), ("stderr", JVal.jstr se),
       ("stdout", JVal.jstr so)]) "stdout" = some (JVal.jstr so) := by
    rw [Smap.find?_foldl_insert_of_not_mem _ _ _ (fun kv h => (hkeysne kv h).2.2)]
    rfl
  have hbasePW : ([("return-value", JVal.jint rv), ("stderr", JVal.jstr se),
      ("stdout", JVal.jstr so)] : List (String × JVal)).Pairwise Smap.keyLt := by
    refine List.Pairwise.cons ?_ (List.Pairwise.cons ?_
      (List.Pairwise.cons ?_ List.Pairwise.nil))
    · intro x hx
      rcases List.mem_cons.mp hx with h | h
      · rw [h]; exact (by decide : strLtB "return-value" "stderr" = true)
      · have : x = ("stdout", JVal.jstr so) := by simpa using h
        rw [this]; exact (by decide : strLtB "return-value" "stdout" = true)
    · intro x hx
      have : x = ("stdout", JVal.jstr so) := by simpa using hx
      rw [this]; exact (by decide : strLtB "stderr" "stdout" = true)
    · intro x hx
      exact absurd hx (List.not_mem_nil x)
  have hfilter : ((other.map (fun kv => (kv.1, JVal.jstr kv.2))).foldl
      (fun o kv => Smap.insert o kv.1 kv.2)
      [("return-value", JVal.jint rv), ("stderr", JVal.jstr se),
       ("stdout", JVal.jstr so)]).filter (fun kv => notFixedKey kv.1) =
      other.map (fun kv => (kv.1, JVal.jstr kv.2)) := by
    rw [Smap.filter_foldl_insert notFixedKey _ _ hbasePW hkeysfx]
    have hbf : ([("return-value", JVal.jint rv), ("stderr", JVal.jstr se),
        ("stdout", JVal.jstr so)] : List (String × JVal)).filter
          (fun kv => notFixedKey kv.1) = [] := rfl
    rw [hbf]
    have := Smap.foldl_insert_of_sorted (other.map (fun kv => (kv.1, JVal.jstr kv.2)))
      [] hkvsPW (fun x hx => absurd hx (List.not_mem_nil x))
    simpa using this
  simp only [deserializeByProducts, hf1, hf2, hf3, hfilter,
    collectStrings_map_jstr other]

/-- Witness for C6: a record with a JSON-sensitive stdout and one
extension field away from the fixed names roundtrips to itself. -/
theorem byproducts_roundtrip_witness :
    deserializeByProducts (serializeByProducts
        ((ByProducts.new.set_stdout "a\"b\n").set_other_field "key1" "v\"1")) =
      some ((ByProducts.new.set_stdout "a\"b\n").set_other_field "key1" "v\"1") :=
  byproducts_roundtrip
    ((ByProducts.new.set_stdout "a\"b\n").set_other_field "key1" "v\"1")
    (by decide) (by decide)

end InToto
